import Mathlib

/-!
Verification of the pes-bca repository's two scripts against its
natural-language specification.

* `GenHtml` embeds `src/tools/gen-html.py`: JSON course descriptors are
  rendered to static HTML disclosure fragments and written through a
  compare-before-overwrite step.
* `UpdateLinks` embeds `src/update_links.py`: PDF `href`s in one HTML
  document are checked against a static-asset root and repaired by a
  filename heuristic.

Modeling conventions (shared by both embeddings):

* Python strings are Lean `String`s, manipulated through their `List Char`
  data.  All inputs exercised by the scripts are ASCII, so the ASCII-only
  `Char.toLower`/`Char.toUpper`/`Char.isAlpha`/`Char.isDigit` faithfully
  model the Python methods on the relevant inputs; likewise `\s` and `\d`
  of Python's `re` are modeled by their ASCII subsets.
* JSON dictionary fields are `Option String` (a missing key or JSON
  `null` is `none`); Python truthiness of such a field (`x or y`) is
  `none`/`some ""` falsy.  Non-string JSON values other than the lists
  forming the unit/group/file tree are outside the model (the scripts
  only `str()` the unit identifier; the model stores that string form).
* The filesystem is explicit: the Generator's template directory is a map
  from path to file content, the Repairer's static-asset root is a list
  of file paths (relative to `static/`) in directory-listing order, which
  is also the order `glob.glob`/`os.listdir` enumerate (the spec itself
  notes this order is platform-dependent; the model takes it as given).
  Temp-file/atomic-rename mechanics are out of scope per spec §1; the
  write step is modeled at the level of the destination file.
-/

namespace PyStr

/-- Python `str` ordering on characters is by code point. -/
def charsLe : List Char → List Char → Bool
  | [], _ => true
  | _ :: _, [] => false
  | a :: as, b :: bs =>
    if a.toNat = b.toNat then charsLe as bs else decide (a.toNat < b.toNat)

/-- Python `s.split(sep)` for a one-character separator: keeps empty parts,
`"".split(sep) = [""]`. -/
def splitOnChar (sep : Char) : List Char → List (List Char)
  | [] => [[]]
  | c :: cs =>
    match splitOnChar sep cs with
    | [] => [[]]
    | h :: t => if c = sep then [] :: h :: t else (c :: h) :: t

/-- Python `sep.join(parts)`. -/
def pyJoin (sep : String) : List String → String
  | [] => ""
  | [x] => x
  | x :: xs => x ++ sep ++ pyJoin sep xs

/-- Python `s.startswith(t)`. -/
def pyStartsWith (s t : String) : Bool := t.data.isPrefixOf s.data

/-- Python `s.endswith(t)`. -/
def pyEndsWith (s t : String) : Bool := t.data.isSuffixOf s.data

/-- Python `needle in hay` (substring containment). -/
def containsSub (hay needle : String) : Bool :=
  hay.data.tails.any fun t => needle.data.isPrefixOf t

/-- Python `s.lower()` (ASCII). -/
def pyLower (s : String) : String := ⟨s.data.map Char.toLower⟩

/-- Python `s.upper()` (ASCII). -/
def pyUpper (s : String) : String := ⟨s.data.map Char.toUpper⟩

def pyTitleAux : Bool → List Char → List Char
  | _, [] => []
  | prev, c :: cs =>
    (if c.isAlpha then (if prev then c.toLower else c.toUpper) else c) ::
      pyTitleAux c.isAlpha cs

/-- Python `s.title()` (ASCII): a letter is uppercased when the previous
character is not a letter, lowercased otherwise. -/
def pyTitle (s : String) : String := ⟨pyTitleAux false s.data⟩

/-- Python `os.path.dirname` on POSIX: the text up to the last `/`, with
trailing slashes stripped unless the result is all slashes; `""` when the
path has no slash. -/
def pyDirname (s : String) : String :=
  let head := (s.data.reverse.dropWhile fun c => ¬ c = '/').reverse
  if head = [] then ""
  else if head.all fun c => c = '/' then ⟨head⟩
  else ⟨(head.reverse.dropWhile fun c => c = '/').reverse⟩

/-- `os.path.basename` on POSIX: the text after the last `/`. -/
def pyBasename (s : String) : String := ⟨s.data.reverse.takeWhile (fun c => ¬ c = '/') |>.reverse⟩

def replaceOnceAux (pat rep : List Char) : List Char → List Char
  | [] => []
  | c :: cs =>
    if pat.isPrefixOf (c :: cs) ∧ pat ≠ [] then rep ++ (c :: cs).drop pat.length
    else c :: replaceOnceAux pat rep cs

/-- Python `s.replace(pat, rep, 1)` for non-empty `pat`: replace the first
occurrence only.  (For empty `pat` Python inserts `rep` before the first
character; the scripts never call it that way and the model returns `s`.) -/
def pyReplaceOnce (s pat rep : String) : String :=
  ⟨replaceOnceAux pat.data rep.data s.data⟩

def replaceAllAux (pat rep : List Char) : Nat → List Char → List Char
  | _, [] => []
  | 0, l => l
  | fuel + 1, c :: cs =>
    if pat.isPrefixOf (c :: cs) ∧ pat ≠ [] then
      rep ++ replaceAllAux pat rep fuel (cs.drop (pat.length - 1))
    else c :: replaceAllAux pat rep fuel cs

/-- Python `s.replace(pat, rep)` for non-empty `pat`: replace every
non-overlapping occurrence, scanning left to right.  The fuel argument
(one unit per character consumed) only serves structural recursion;
`s.length` is always enough. -/
def replaceAll (s pat rep : String) : String :=
  ⟨replaceAllAux pat.data rep.data s.data.length s.data⟩

/-- UTF-8 encoding of one character, as byte values. -/
def utf8Bytes (c : Char) : List Nat :=
  let n := c.toNat
  if n < 128 then [n]
  else if n < 2048 then [192 + n / 64, 128 + n % 64]
  else if n < 65536 then [224 + n / 4096, 128 + (n / 64) % 64, 128 + n % 64]
  else [240 + n / 262144, 128 + (n / 4096) % 64, 128 + (n / 64) % 64, 128 + n % 64]

/-- Uppercase hex digit, as used by `urllib.parse.quote`. -/
def hexChar (n : Nat) : Char := if n < 10 then Char.ofNat (48 + n) else Char.ofNat (55 + n)

/-- The characters `urllib.parse.quote` never encodes: ASCII letters,
digits, and `_.-~`. -/
def quoteSafe (c : Char) : Bool :=
  c.isAlpha || c.isDigit || c = '_' || c = '.' || c = '-' || c = '~'

/-- Python `urllib.parse.quote(s, safe='')`: every character outside the
always-safe set is UTF-8 encoded and each byte percent-escaped with
uppercase hex; the empty `safe` set means `/` is escaped too. -/
def pyQuote (s : String) : String :=
  ⟨s.data.flatMap fun c =>
    if quoteSafe c then [c]
    else (utf8Bytes c).flatMap fun b => ['%', hexChar (b / 16), hexChar (b % 16)]⟩

end PyStr

namespace GenHtml

open PyStr

/-- One entry of a Group's `files` array of `src/tools/gen-html.py`.
Each field is `dict.get` of the corresponding JSON key: `none` for a
missing key or JSON `null`. -/
structure FileRec where
  filename : Option String
  linkText : Option String
  linkTitle : Option String
  title : Option String
  url : Option String
deriving DecidableEq

/-- One entry of a unit's `groups` array. -/
structure GroupRec where
  type : Option String
  files : List FileRec
deriving DecidableEq

/-- One entry of the top-level `units` array.  The script only uses the
`unit` field through `str(unit_id)`; the model stores that string form
(`none` when the key is missing, in which case the script uses `""`). -/
structure UnitRec where
  unit : Option String
  groups : List GroupRec
deriving DecidableEq

/-- A parsed subject JSON document: `data.get("units", [])`. -/
structure SubjectData where
  units : List UnitRec
deriving DecidableEq

/-- `esc` of gen-html.py: escape `&` first, then `<`, then `>`
(each a whole-string `str.replace`). -/
def esc (s : String) : String :=
  replaceAll (replaceAll (replaceAll s "&" "&amp;") "<" "&lt;") ">" "&gt;"

/-- `extract_leading_number` of gen-html.py: the value of the leading
digit run after optional whitespace (regex `^\s*0*([1-9]\d*|0)`, so
leading zeros are discarded and an all-zero run is `0`); otherwise the
value of the first digit run found anywhere (`re.search(r'(\d+)')`);
otherwise the sentinel `10 ^ 9`.  Python ints are unbounded, so the
`int(...)` conversions never raise and the `except` arms are dead. -/
def isPySpace (c : Char) : Bool :=
  c = ' ' || c = '\t' || c = '\n' || c = '\r' || c = '\x0b' || c = '\x0c'

def digitsVal (l : List Char) : Nat :=
  l.foldl (fun n c => n * 10 + (c.toNat - 48)) 0

def firstDigitRun : List Char → Option (List Char)
  | [] => none
  | c :: cs => if c.isDigit then some (c :: cs.takeWhile Char.isDigit) else firstDigitRun cs

def extract_leading_number (filename : String) : Nat :=
  if filename.data = [] then 10 ^ 9
  else if (filename.data.dropWhile isPySpace).takeWhile Char.isDigit ≠ [] then
    digitsVal ((filename.data.dropWhile isPySpace).takeWhile Char.isDigit)
  else
    match firstDigitRun filename.data with
    | some run => digitsVal run
    | none => 10 ^ 9

/-- The sort key of the `files_sorted` call:
`(extract_leading_number(f.get("filename", "")), f.get("filename", "") or "")`. -/
def fileKey (f : FileRec) : Nat × String :=
  (extract_leading_number (f.filename.getD ""), f.filename.getD "")

/-- Lexicographic comparison of sort keys; the string tie-break is
Python's code-point order. -/
def keyLE (f g : FileRec) : Bool :=
  decide ((fileKey f).1 < (fileKey g).1) ||
    (decide ((fileKey f).1 = (fileKey g).1) &&
      charsLe (fileKey f).2.data (fileKey g).2.data)

def orderedInsertB (le : FileRec → FileRec → Bool) (x : FileRec) :
    List FileRec → List FileRec
  | [] => [x]
  | y :: ys => if le x y then x :: y :: ys else y :: orderedInsertB le x ys

def insertionSortB (le : FileRec → FileRec → Bool) : List FileRec → List FileRec
  | [] => []
  | x :: xs => orderedInsertB le x (insertionSortB le xs)

/-- `files_sorted` of gen-html.py.  Python's `sorted` is a stable sort by
`fileKey`; a stable sort w.r.t. a fixed total preorder has a unique
result, so the stable insertion sort used here yields the same list as
CPython's Timsort. -/
def files_sorted (files : List FileRec) : List FileRec :=
  insertionSortB keyLE files

/-- The `svg` module constant of gen-html.py (its three adjacent string
literals concatenated). -/
def svg : String :=
  "<svg width=\"1em\" height=\"1em\" viewBox=\"0 0 24 30\" fill=\"currentColor\" style=\"vertical-align:middle; margin-left: -0.25em\"><path class=\"cls-1\" d=\"m21,12v6c0,1.6543-1.3457,3-3,3H6c-1.6543,0-3-1.3457-3-3V6c0-1.6543,1.3457-3,3-3h6c.55273,0,1,.44775,1,1s-.44727,1-1,1h-6c-.55176,0-1,.44873-1,1v12c0,.55127.44824,1,1,1h12c.55176,0,1-.44873,1-1v-6c0-.55225.44727-1,1-1s1,.44775,1,1Zm-1-9h-4c-.55273,0-1,.44775-1,1s.44727,1,1,1h1.58594l-9.29297,9.29297c-.39062.39062-.39062,1.02344,0,1.41406.19531.19531.45117.29297.70703.29297s.51172-.09766.70703-.29297l9.29297-9.29297v1.58594c0,.55225.44727,1,1,1s1-.44775,1-1v-4c0-.55225-.44727-1-1-1Z\"/></svg>"

/-- `SUBJ_DISPLAY_MAP` of gen-html.py. -/
def SUBJ_DISPLAY_MAP : List (String × String) :=
  [("wd", "Web Design"),
   ("pce", "Professional Communication and Ethics"),
   ("cfp", "Computational Foundation with Python"),
   ("mfca", "Mathematical Foundation for Computer Applications"),
   ("ciep", "Constitutional Law, Intellectual Property, Ethics"),
   ("mp", "Macro Programming")]

/-- Python `x or y or ...` on optional strings: `None` and `""` are falsy. -/
def pyOr (a b : Option String) : Option String :=
  match a with
  | none => b
  | some s => if s = "" then b else some s

/-- The `link_text` expression of gen-html.py (line 95):
`file.get("linkText") or file.get("linkTitle") or file.get("title") or
file.get("filename") or ""`. -/
def link_text (f : FileRec) : String :=
  (pyOr f.linkText (pyOr f.linkTitle (pyOr f.title f.filename))).getD ""

/-- The `viewer_href` expression of gen-html.py (line 100). -/
def viewer_href (resource_url lt : String) : String :=
  "/pdf-viewer/?file=" ++ pyQuote resource_url ++
    (if lt = "" then "" else "&title=" ++ pyQuote lt)

/-- The `<li>` line appended for one file record (line 101). -/
def renderFile (f : FileRec) : String :=
  "                <li><a href=\"" ++ esc (viewer_href (f.url.getD "") (link_text f)) ++
    "\">" ++ esc (link_text f) ++ "</a></li>"

/-- The lines appended for one group (lines 85-103);
`group.get("files", []) or []` is the `files` field of the model. -/
def renderGroup (g : GroupRec) : List String :=
  ["            <details>",
   "              <summary>" ++ esc (g.type.getD "") ++ "</summary>",
   "              <ul>"]
  ++ (files_sorted g.files).map renderFile
  ++ ["              </ul>",
      "            </details>"]

/-- The lines appended for one unit (lines 77-107). -/
def renderUnit (u : UnitRec) : List String :=
  ["    <li>",
   "      <details>",
   "        <summary>Unit-" ++ esc (u.unit.getD "") ++ "</summary>",
   "        <ul>",
   "          <li>"]
  ++ u.groups.flatMap renderGroup
  ++ ["          </li>",
      "        </ul>",
      "      </details>",
      "    </li>"]

/-- `subj_display` (line 66): the static lookup table, else the subject id
with `-` replaced by a space, title-cased. -/
def subj_display (subj : String) : String :=
  (SUBJ_DISPLAY_MAP.lookup subj).getD (pyTitle (replaceAll subj "-" " "))

/-- The full generated document for one subject (`content`, line 112):
the `parts` list joined by newlines plus a trailing newline.  The
`json_file` interpolated into the first line is `data/<subj>.json`. -/
def render (subj : String) (d : SubjectData) : String :=
  let parts :=
    ["<!-- generated from data/" ++ subj ++ ".json -->",
     "<details>",
     "  <summary>",
     "    " ++ esc (subj_display subj),
     "    <sup><a href=\"/sem-1/" ++ esc subj ++ "/\" style=\"border-bottom: none;\">" ++
       svg ++ "</a></sup>",
     "  </summary>",
     "  <ul>"]
    ++ d.units.flatMap renderUnit
    ++ ["  </ul>",
        "</details>"]
  pyJoin "\n" parts ++ "\n"

end GenHtml

namespace GenHtml

/-- The Generator's template directory: path to file content. -/
def FSys : Type := String → Option String

/-- Overwrite/create one file. -/
def setFile (fs : FSys) (p : String) (v : String) : FSys :=
  fun q => if q = p then some v else fs q

/-- The destination path `templates/<subj>.html` (line 111). -/
def out_path (subj : String) : String := "templates/" ++ subj ++ ".html"

/-- The write step of gen-html.py's main loop (lines 113-128), modeled at
the destination file (temp-file mechanics are out of scope per spec §1):
`filecmp.cmp(..., shallow=False)` is byte equality, `os.replace` is the
overwrite/create.  Returns the new directory state and the status line
printed. -/
def writeStep (fs : FSys) (path content : String) : FSys × String :=
  match fs path with
  | some old =>
    if old = content then (fs, "Unchanged template " ++ path)
    else (setFile fs path content, "Updated template " ++ path)
  | none => (setFile fs path content, "Wrote template " ++ path)

/-- The result of one whole Generator run: final template directory, the
status lines in subject order, and for each successfully parsed subject
the generated document (the `content` string of line 112). -/
structure RunResult where
  fs : FSys
  lines : List String
  gen : List (String × String)

/-- One iteration of the main loop (lines 57-135) for subject `s`.
`json.loads` is modeled abstractly by the `Except` value carried with the
input: `.error e` is a parse failure whose message interpolates as `e`,
in which case the script prints the diagnostic and `continue`s before any
file activity; `.ok d` is the parsed document. -/
def processSubject (fs : FSys) (s : String) (parsed : Except String SubjectData) :
    FSys × String × Option (String × String) :=
  match parsed with
  | .error e =>
    (fs, "Skipping data/" ++ s ++ ".json: invalid json (" ++ e ++ ")", none)
  | .ok d =>
    let c := render s d
    let (fs1, line) := writeStep fs (out_path s) c
    (fs1, line, some (s, c))

/-- The whole main loop over the input directory.  `inputs` carries the
subjects in the order `sorted(DATA_DIR.glob("*.json"))` visits them,
each with its (abstract) parse result; a directory listing never repeats
a name, so the subject names are distinct. -/
def runGen : List (String × Except String SubjectData) → FSys → RunResult
  | [], fs => ⟨fs, [], []⟩
  | (s, p) :: rest, fs =>
    let (fs1, line, g) := processSubject fs s p
    let r := runGen rest fs1
    ⟨r.fs, line :: r.lines, g.toList ++ r.gen⟩

end GenHtml

namespace UpdateLinks

open PyStr

/-- One element of a compiled `fnmatch` pattern, mirroring what CPython
3.11's `fnmatch.translate` emits for each pattern position: `*` becomes
a star, `?` a match-any (`.` under `re.DOTALL`), a bracket expression a
character class (or, for the degenerate empty / negated-empty classes,
`(?!)` alias `never` / `.` alias `anyChar`), everything else a literal
(`re.escape`d, hence exactly itself).  Runs of consecutive stars are
compressed by `translate`, which does not change the matched language
and so is not modeled. -/
inductive GlobTok where
  | star
  | anyChar
  | never
  | lit (c : Char)
  | cls (neg : Bool) (chunks : List (List Char))
deriving DecidableEq

/-- The bracket scan of `translate`: after a `[`, an optional `!`, then
an optional literal `]`, then everything up to the next `]`.  Returns
the bracket content (including the `!`/`]` prefixes, as in the source)
and the text after the closing `]`; `none` when no closing `]` exists,
in which case the `[` is a literal. -/
def classSplit (l : List Char) : Option (List Char × List Char) :=
  let pr :=
    match l with
    | '!' :: ']' :: t => (['!', ']'], t)
    | '!' :: t => (['!'], t)
    | ']' :: t => ([']'], t)
    | t => (([] : List Char), t)
  let mid := pr.2.takeWhile fun c => ¬ c = ']'
  match pr.2.dropWhile fun c => ¬ c = ']' with
  | ']' :: after => some (pr.1 ++ mid, after)
  | _ => none

/-- `str.find('-', k, j)` shaped for lists: split at the first `-` at
index ≥ `skip`, dropping the `-` itself. -/
def findDash : Nat → List Char → Option (List Char × List Char)
  | _, [] => none
  | 0, c :: t =>
    if c = '-' then some ([], t)
    else
      match findDash 0 t with
      | some p => some (c :: p.1, p.2)
      | none => none
  | skip + 1, c :: t =>
    match findDash skip t with
    | some p => some (c :: p.1, p.2)
    | none => none

/-- The chunk loop of `translate`: the first `-` search starts one
character into the (negation-stripped) body, each later search two
characters into the new chunk (`k = k+3`), so those hyphens stay inside
their chunk as literals.  The fuel (one per `-` consumed) only drives
structural recursion; the body length is always enough. -/
def splitChunksAux : Nat → Nat → List Char → List (List Char)
  | 0, _, body => [body]
  | fuel + 1, skip, body =>
    match findDash skip body with
    | none => [body]
    | some p => p.1 :: splitChunksAux fuel 2 p.2

/-- `if chunk: chunks.append(chunk) else: chunks[-1] += '-'`: a trailing
`-` (empty final chunk) becomes a literal `-` on the previous chunk. -/
def fixTrailing (cs : List (List Char)) : List (List Char) :=
  match cs.getLast? with
  | some [] => cs.dropLast.dropLast ++ [cs.dropLast.getLastD [] ++ ['-']]
  | _ => cs

def splitChunks (body : List Char) : List (List Char) :=
  fixTrailing (splitChunksAux body.length 1 body)

/-- The dead-range removal of `translate`, right to left: when the last
character of a chunk exceeds the first character of the next (an empty
range, invalid in a regex), the two endpoints are dropped and the chunks
merged. -/
def mergeDead : List (List Char) → List (List Char)
  | [] => []
  | a :: rest =>
    match mergeDead rest with
    | [] => [a]
    | b :: r =>
      if (b.headD ' ').toNat < (a.getLastD ' ').toNat then (a.dropLast ++ b.tail) :: r
      else a :: b :: r

/-- Compile one bracket content (`stuff`) to a token, mirroring
`translate`: strip the `!` into a negation flag; without any `-` the
body is all literals; otherwise chunk, fix a trailing `-`, remove dead
ranges; an emptied body is the never-match `(?!)` (match-any `.` when
negated). -/
def classTok (stuff : List Char) : GlobTok :=
  let neg := stuff.headD ' ' = '!'
  let body := if neg then stuff.tail else stuff
  if '-' ∈ body then
    let chunks := mergeDead (splitChunks body)
    if chunks = [[]] then (if neg then GlobTok.anyChar else GlobTok.never)
    else GlobTok.cls neg chunks
  else GlobTok.cls neg [body]

/-- Compile a pattern to tokens; apart from the bracket logic each
character maps to its own token.  The fuel (one per character) only
drives structural recursion; the pattern length is always enough. -/
def parseGlobAux : Nat → List Char → List GlobTok
  | _, [] => []
  | 0, l => l.map GlobTok.lit
  | fuel + 1, c :: rest =>
    if c = '*' then GlobTok.star :: parseGlobAux fuel rest
    else if c = '?' then GlobTok.anyChar :: parseGlobAux fuel rest
    else if c = '[' then
      match classSplit rest with
      | none => GlobTok.lit '[' :: parseGlobAux fuel rest
      | some sa => classTok sa.1 :: parseGlobAux fuel sa.2
    else GlobTok.lit c :: parseGlobAux fuel rest

def parseGlob (pat : String) : List GlobTok := parseGlobAux pat.data.length pat.data

/-- A character is a literal member of the class when some chunk
contains it: in the joined class text every intra-chunk `-`/`\` is
escaped, so chunk characters are literals (range endpoints are members
anyway, ranges being inclusive). -/
def chunkHasChar (chunks : List (List Char)) (c : Char) : Bool :=
  chunks.any fun s => s.contains c

/-- The join hyphens between chunks, read with regex class rules: a
hyphen forms the inclusive range (last char of the left chunk, first
char of the right chunk) unless it directly follows a completed range
(previous join formed one and the left chunk is that range's single
endpoint), in which case the hyphen is a literal `-`. -/
def joinScan (c : Char) : Bool → List (List Char) → Bool
  | _, [] => false
  | _, [_] => false
  | prevRange, a :: b :: rest =>
    let avail := !(prevRange && a.length == 1)
    (avail && decide ((a.getLastD ' ').toNat ≤ c.toNat) &&
        decide (c.toNat ≤ (b.headD ' ').toNat)) ||
      (!avail && decide (c = '-')) ||
      joinScan c avail (b :: rest)

def clsMember (neg : Bool) (chunks : List (List Char)) (c : Char) : Bool :=
  let m := chunkHasChar chunks c || joinScan c false chunks
  if neg then !m else m

/-- Full-match of a compiled pattern against a name, the semantics of
`re.fullmatch` on `translate`'s output (`re.DOTALL`, so `?` and classes
see newlines like any character; `translate`'s atomic-group star
optimization is language-preserving and not modeled). -/
def globTokMatch : List GlobTok → List Char → Bool
  | [], s => s.isEmpty
  | GlobTok.star :: ps, s => s.tails.any fun t => globTokMatch ps t
  | GlobTok.anyChar :: ps, s =>
    match s with
    | [] => false
    | _ :: cs => globTokMatch ps cs
  | GlobTok.never :: _, _ => false
  | GlobTok.lit c :: ps, s =>
    match s with
    | [] => false
    | d :: cs => c = d && globTokMatch ps cs
  | GlobTok.cls neg chunks :: ps, s =>
    match s with
    | [] => false
    | d :: cs => clsMember neg chunks d && globTokMatch ps cs

/-- `glob` component match: `fnmatch` of the compiled pattern, plus
glob's hidden-file rule — a name starting with `.` is only matched by a
pattern whose text starts with `.`. -/
def globComp (pat name : String) : Bool :=
  (!(pyStartsWith name ".") || pyStartsWith pat ".") &&
    globTokMatch (parseGlob pat) name.data

/-- Split a path on `/`, dropping empty components (the OS collapses
repeated slashes; none of the paths the claims exercise produce any). -/
def pathComps (s : String) : List String :=
  ((splitOnChar '/' s.data).map fun l => (⟨l⟩ : String)).filter fun c => c ≠ ""

/-- A `glob.glob` pattern applied to one candidate path: component lists
must have equal length and match pairwise. -/
def globPathMatch (pat path : String) : Bool :=
  let ps := pathComps pat
  let cs := pathComps path
  ps.length = cs.length && (ps.zip cs).all fun pc => globComp pc.1 pc.2

/-- The static-asset root: the relative paths (under `static/`) of the
files on disk, in directory-listing order. -/
def StaticFS : Type := List String

/-- `glob.glob(f"static/{dir_path}/*{base}*.pdf")`: the matching files,
as the `static/`-prefixed paths glob returns, in listing order.
Directories themselves are not modeled (none of the repository's asset
names could make a directory match a `*.pdf` component). -/
def globPdf (fs : StaticFS) (dir_path base : String) : List String :=
  (fs.filter fun p =>
      globPathMatch ("static/" ++ dir_path ++ "/*" ++ base ++ "*.pdf") ("static/" ++ p)).map
    fun p => "static/" ++ p

/-- `os.path.exists(f"static/{p}")` for the model: membership among the
files (the hrefs checked always name files, not directories). -/
def staticExists (fs : StaticFS) (p : String) : Bool := fs.contains p

/-- `os.path.exists(f"static/{dir_path}")` for a directory: some file
lies beneath it.  (`static/` itself, `dir_path = ""`, exists.) -/
def dirExists (fs : StaticFS) (dir_path : String) : Bool :=
  if dir_path = "" then true
  else fs.any fun p => pyStartsWith p (dir_path ++ "/")

/-- `os.listdir(f"static/{dir_path}")` restricted to the plain files in
that directory (subdirectory entries are not modeled; the loop that
consumes this only looks at `.pdf` names). -/
def listdir (fs : StaticFS) (dir_path : String) : List String :=
  (fs.filter fun p => pyDirname p = dir_path).map pyBasename

/-- The subject-guess chain of find_new_file (lines 20-29): first of
`cfp`, `mfca`, `pce`, `wd` contained in the lowercased name. -/
def subjectGuess (old_filename : String) : Option String :=
  let l := pyLower old_filename
  if containsSub l "cfp" then some "cfp"
  else if containsSub l "mfca" then some "mfca"
  else if containsSub l "pce" then some "pce"
  else if containsSub l "wd" then some "wd"
  else none

/-- The `base_parts` computed by lines 9-16 of update_links.py: the
`'_'`-separated segments of the old path up to (excluding) the first
segment starting with `UQ25`. -/
def base_parts (old_filename : String) : List String :=
  ((splitOnChar '_' old_filename.data).map fun l => (⟨l⟩ : String)).takeWhile
    fun part => !pyStartsWith part "UQ25"

/-- `find_new_file` of update_links.py (lines 6-58).  The inner
`Option (Option String)` distinguishes an early `return` inside the
`if not base_parts:` block (`some r`) from falling through to the glob
section (`none`), which happens when the subject branch finds a
directory but no matching file, or no existing directory. -/
def find_new_file (fs : StaticFS) (old_filename : String) : Option String :=
  let bp := base_parts old_filename
  let dir_path := pyDirname old_filename
  let early : Option (Option String) :=
    if bp.isEmpty then
      match subjectGuess old_filename with
      | none => some none
      | some subject =>
        if dirExists fs dir_path then
          match (listdir fs dir_path).find? fun file =>
              pyEndsWith file ".pdf" && containsSub file (pyUpper subject) with
          | some file => some (some (dir_path ++ "/" ++ file))
          | none => none
        else none
    else none
  match early with
  | some r => r
  | none =>
    let base_name := pyJoin "_" bp
    match (globPdf fs dir_path base_name).head? with
    | some m => some (pyReplaceOnce m "static/" "")
    | none =>
      if !bp.isEmpty then
        match (globPdf fs dir_path (bp.headD "")).head? with
        | some m => some (pyReplaceOnce m "static/" "")
        | none => none
      else none

end UpdateLinks

namespace UpdateLinks

open PyStr

/-- The href regex of update_links.py (line 66), tried at one position:
`href="([^"]*\.pdf)"` matches here iff the text starts with `href="`,
the following run of non-quote characters ends with `.pdf`, and the run
is closed by a `"`.  Returns the captured group and the text after the
full match (where `re.finditer` resumes). -/
def tryPdfHref (l : List Char) : Option (String × List Char) :=
  if "href=\"".data.isPrefixOf l then
    let after := l.drop 6
    let v := after.takeWhile fun c => ¬ c = '"'
    match after.dropWhile fun c => ¬ c = '"' with
    | '"' :: rest => if pyEndsWith ⟨v⟩ ".pdf" then some (⟨v⟩, rest) else none
    | _ => none
  else none

def scanHrefsAux : Nat → List Char → List String
  | 0, _ => []
  | _ + 1, [] => []
  | fuel + 1, c :: cs =>
    match tryPdfHref (c :: cs) with
    | some (v, rest) => v :: scanHrefsAux fuel rest
    | none => scanHrefsAux fuel cs

/-- All matches of `re.finditer(r'href="([^"]*\.pdf)"', content)` in
order: scan left to right, resuming after each full match.  The iterator
is created before `content` is reassigned, so it scans the original
text.  The fuel (one per character consumed) only drives the structural
recursion; the text length is always enough. -/
def scanHrefs (content : String) : List String :=
  scanHrefsAux content.data.length content.data

/-- Line 72-73: strip exactly one leading slash. -/
def stripSlash (p : String) : String :=
  if pyStartsWith p "/" then ⟨p.data.drop 1⟩ else p

/-- Lines 80-81: the two whole-document textual substitutions performed
for one resolved href. -/
def applyReplacement (c old newp : String) : String :=
  replaceAll (replaceAll c ("href=\"/" ++ old ++ "\"") ("href=\"/" ++ newp ++ "\""))
    ("href=\"" ++ old ++ "\"") ("href=\"/" ++ newp ++ "\"")

/-- The body of the per-match loop (lines 70-84), acting on the state
`(content, updates, log lines)`. -/
def repairStep (fs : StaticFS) (acc : String × Nat × List String) (old0 : String) :
    String × Nat × List String :=
  let old := stripSlash old0
  if staticExists fs old then acc
  else
    match find_new_file fs old with
    | some newp =>
      (applyReplacement acc.1 old newp, acc.2.1 + 1,
        acc.2.2 ++ ["Updating: " ++ old ++ " -> " ++ newp])
    | none => (acc.1, acc.2.1, acc.2.2 ++ ["Warning: Could not find replacement for " ++ old])

/-- Only the content component of `repairStep`. -/
def contentStep (fs : StaticFS) (c : String) (old0 : String) : String :=
  let old := stripSlash old0
  if staticExists fs old then c
  else
    match find_new_file fs old with
    | some newp => applyReplacement c old newp
    | none => c

/-- The observable outcome of `update_html_file`: the document text at
the end of the run, the update counter, the console lines in order, and
whether the file was rewritten (the `updates > 0` write at lines 86-88). -/
structure RepairResult where
  content : String
  updates : Nat
  logs : List String
  wrote : Bool

/-- `update_html_file` of update_links.py (lines 60-91), for a document
whose current text is `content`. -/
def update_html_file (fs : StaticFS) (html_file content : String) : RepairResult :=
  let s := (scanHrefs content).foldl (repairStep fs) (content, 0, [])
  if 0 < s.2.1 then
    ⟨s.1, s.2.1, s.2.2 ++ ["Updated " ++ toString s.2.1 ++ " links in " ++ html_file], true⟩
  else
    ⟨s.1, s.2.1, s.2.2 ++ ["No updates needed for " ++ html_file], false⟩

end UpdateLinks

namespace PyStr

/-- `str.replace` with a one-character pattern substitutes characterwise. -/
theorem replaceAllAux_single (c : Char) (r : List Char) :
    ∀ (l : List Char) (fuel : Nat), l.length ≤ fuel →
      replaceAllAux [c] r fuel l = l.flatMap fun x => if x = c then r else [x] := by
  intro l
  induction l with
  | nil => intro fuel _; cases fuel <;> rfl
  | cons x xs ih =>
    intro fuel hf
    cases fuel with
    | zero => simp at hf
    | succ n =>
      by_cases hx : x = c
      · subst hx
        simp [replaceAllAux, List.isPrefixOf, ih n (by simpa using hf)]
      · have hcx : ¬ c = x := fun h => hx h.symm
        simp [replaceAllAux, List.isPrefixOf, hx, hcx, ih n (by simpa using hf)]

theorem replaceAll_single (s : String) (c : Char) (r : String) :
    replaceAll s ⟨[c]⟩ r = ⟨s.data.flatMap fun x => if x = c then r.data else [x]⟩ :=
  congrArg String.mk (replaceAllAux_single c r.data s.data s.data.length (Nat.le_refl _))

end PyStr

namespace GenHtml

open PyStr

/-- The per-character form of the escaping claimed by the spec: each of
`&`, `<`, `>` maps to its entity, every other character to itself. -/
def escChar (c : Char) : List Char :=
  if c = '&' then "&amp;".data
  else if c = '<' then "&lt;".data
  else if c = '>' then "&gt;".data
  else [c]

theorem escChar_decomp (x : Char) :
    ((if x = '&' then "&amp;".data else [x]).flatMap fun y =>
      (if y = '<' then "&lt;".data else [y]).flatMap fun z =>
        if z = '>' then "&gt;".data else [z]) = escChar x := by
  by_cases h1 : x = '&'
  · subst h1; decide
  · by_cases h2 : x = '<'
    · subst h2; decide
    · by_cases h3 : x = '>'
      · subst h3; decide
      · simp [escChar, h1, h2, h3]

/-- C3: every string inserted into the generated HTML goes through `esc`,
which equals a single per-character pass replacing exactly `&`, `<`, `>`
by their entities — the ampersand substitution running first means the
`&` of `&amp;`/`&lt;`/`&gt;` is never re-escaped; in particular
`A & B <Test>` renders as `A &amp; B &lt;Test&gt;`. -/
theorem c3_escape_single_pass :
    (∀ s : String, esc s = ⟨s.data.flatMap escChar⟩) ∧
    esc "A & B <Test>" = "A &amp; B &lt;Test&gt;" := by
  constructor
  · intro s
    show replaceAll (replaceAll (replaceAll s ⟨['&']⟩ "&amp;") ⟨['<']⟩ "&lt;") ⟨['>']⟩ "&gt;" = _
    rw [replaceAll_single, replaceAll_single, replaceAll_single]
    show String.mk ((((s.data.flatMap _).flatMap _).flatMap _)) = _
    rw [List.flatMap_assoc, List.flatMap_assoc]
    exact congrArg String.mk (congrArg s.data.flatMap (funext escChar_decomp))
  · decide

end GenHtml

namespace PyStr

theorem charsLe_total : ∀ l₁ l₂ : List Char, charsLe l₁ l₂ = true ∨ charsLe l₂ l₁ = true := by
  intro l₁
  induction l₁ with
  | nil => intro l₂; left; rfl
  | cons a as ih =>
    intro l₂
    cases l₂ with
    | nil => right; rfl
    | cons b bs =>
      by_cases h : a.toNat = b.toNat
      · rcases ih bs with h1 | h1
        · left; simp [charsLe, h, h1]
        · right; simp [charsLe, h.symm, h1]
      · have h' : ¬ b.toNat = a.toNat := fun hh => h hh.symm
        rcases Nat.lt_or_ge a.toNat b.toNat with hlt | hge
        · left; simp [charsLe, h, hlt]
        · right
          simp [charsLe, h']
          omega

theorem charsLe_trans :
    ∀ l₁ l₂ l₃ : List Char, charsLe l₁ l₂ = true → charsLe l₂ l₃ = true →
      charsLe l₁ l₃ = true := by
  intro l₁
  induction l₁ with
  | nil => intro l₂ l₃ _ _; rfl
  | cons a as ih =>
    intro l₂ l₃ h12 h23
    cases l₂ with
    | nil => simp [charsLe] at h12
    | cons b bs =>
      cases l₃ with
      | nil => simp [charsLe] at h23
      | cons c cs =>
        simp only [charsLe] at h12 h23 ⊢
        by_cases hab : a.toNat = b.toNat
        · by_cases hbc : b.toNat = c.toNat
          · have hac : a.toNat = c.toNat := hab.trans hbc
            simp only [hab, if_pos rfl] at h12
            simp only [hbc, if_pos rfl] at h23
            simp [hac, ih bs cs (by simpa [hab] using h12) (by simpa [hbc] using h23)]
          · simp only [if_pos hab] at h12
            simp only [if_neg hbc] at h23
            have : b.toNat < c.toNat := by simpa using h23
            have hac : ¬ a.toNat = c.toNat := by omega
            simp only [if_neg hac]
            simp
            omega
        · simp only [if_neg hab] at h12
          have h1 : a.toNat < b.toNat := by simpa using h12
          by_cases hbc : b.toNat = c.toNat
          · have hac : ¬ a.toNat = c.toNat := by omega
            simp only [if_neg hac]
            simp
            omega
          · simp only [if_neg hbc] at h23
            have h2 : b.toNat < c.toNat := by simpa using h23
            have hac : ¬ a.toNat = c.toNat := by omega
            simp only [if_neg hac]
            simp
            omega

end PyStr

namespace GenHtml

open PyStr

theorem keyLE_total : ∀ f g : FileRec, keyLE f g = true ∨ keyLE g f = true := by
  intro f g
  unfold keyLE
  rcases Nat.lt_trichotomy (fileKey f).1 (fileKey g).1 with h | h | h
  · left; simp [h]
  · rcases charsLe_total (fileKey f).2.data (fileKey g).2.data with hc | hc
    · left; simp [h, hc]
    · right; simp [h.symm, hc]
  · right; simp [h]

theorem keyLE_trans :
    ∀ f g k : FileRec, keyLE f g = true → keyLE g k = true → keyLE f k = true := by
  intro f g k hfg hgk
  unfold keyLE at hfg hgk ⊢
  simp only [Bool.or_eq_true, Bool.and_eq_true, decide_eq_true_eq] at hfg hgk ⊢
  rcases hfg with h1 | ⟨h1, hc1⟩
  · rcases hgk with h2 | ⟨h2, _⟩
    · left; omega
    · left; omega
  · rcases hgk with h2 | ⟨h2, hc2⟩
    · left; omega
    · right
      exact ⟨h1.trans h2, charsLe_trans _ _ _ hc1 hc2⟩

theorem perm_orderedInsertB (le : FileRec → FileRec → Bool) (x : FileRec) :
    ∀ l : List FileRec, List.Perm (orderedInsertB le x l) (x :: l) := by
  intro l
  induction l with
  | nil => exact List.Perm.refl _
  | cons y ys ih =>
    unfold orderedInsertB
    by_cases h : le x y = true
    · rw [if_pos h]
    · rw [if_neg h]
      exact (ih.cons y).trans (List.Perm.swap x y ys)

theorem mem_orderedInsertB (le : FileRec → FileRec → Bool) (x z : FileRec)
    (l : List FileRec) (h : z ∈ orderedInsertB le x l) : z = x ∨ z ∈ l := by
  have hm := (perm_orderedInsertB le x l).mem_iff.mp h
  simpa using hm

theorem pairwise_orderedInsertB
    (total : ∀ a b : FileRec, keyLE a b = true ∨ keyLE b a = true)
    (trans : ∀ a b c : FileRec, keyLE a b = true → keyLE b c = true → keyLE a c = true)
    (x : FileRec) :
    ∀ l : List FileRec, l.Pairwise (fun a b => keyLE a b = true) →
      (orderedInsertB keyLE x l).Pairwise fun a b => keyLE a b = true := by
  intro l
  induction l with
  | nil => intro _; simp [orderedInsertB]
  | cons y ys ih =>
    intro hp
    rw [List.pairwise_cons] at hp
    unfold orderedInsertB
    by_cases h : keyLE x y = true
    · simp only [if_pos h]
      rw [List.pairwise_cons]
      refine ⟨?_, List.pairwise_cons.mpr hp⟩
      intro z hz
      rcases hz with _ | hz
      · exact h
      · exact trans x y z h (hp.1 z (by assumption))
    · simp only [if_neg h]
      rw [List.pairwise_cons]
      refine ⟨?_, ih hp.2⟩
      intro z hz
      rcases mem_orderedInsertB keyLE x z ys hz with rfl | hz
      · rcases total z y with h' | h'
        · exact absurd h' h
        · exact h'
      · exact hp.1 z hz

theorem files_sorted_perm : ∀ files : List FileRec, List.Perm (files_sorted files) files := by
  intro files
  induction files with
  | nil => exact List.Perm.refl _
  | cons f fsx ih =>
    exact (perm_orderedInsertB keyLE f (files_sorted fsx)).trans (ih.cons f)

theorem files_sorted_pairwise :
    ∀ files : List FileRec, (files_sorted files).Pairwise fun a b => keyLE a b = true := by
  intro files
  induction files with
  | nil => simp [files_sorted, insertionSortB]
  | cons f fsx ih => exact pairwise_orderedInsertB keyLE_total keyLE_trans f _ ih

theorem firstDigitRun_none :
    ∀ l : List Char, (∀ c ∈ l, c.isDigit = false) → firstDigitRun l = none := by
  intro l
  induction l with
  | nil => intro _; rfl
  | cons c cs ih =>
    intro h
    unfold firstDigitRun
    rw [if_neg (by simp [h c (by simp)])]
    exact ih fun d hd => h d (by simp [hd])

end GenHtml

namespace GenHtml

open PyStr

theorem extract_no_digits (fn : String) (h : ∀ c ∈ fn.data, c.isDigit = false) :
    extract_leading_number fn = 10 ^ 9 := by
  unfold extract_leading_number
  by_cases he : fn.data = []
  · rw [if_pos he]
  · rw [if_neg he]
    have hl : (fn.data.dropWhile isPySpace).takeWhile Char.isDigit = [] := by
      cases hd : fn.data.dropWhile isPySpace with
      | nil => rfl
      | cons c cs =>
        have hc : c.isDigit = false := by
          refine h c ((List.dropWhile_sublist isPySpace).subset ?_)
          rw [hd]
          exact List.mem_cons_self c cs
        simp [List.takeWhile_cons, hc]
    rw [hl]
    rw [if_neg (by simp)]
    rw [firstDigitRun_none fn.data h]

/-- The file records of the spec's §8 sort example (input order scrambled
to exercise the sort). -/
def c2_2b : FileRec := ⟨some "2_b.pdf", none, none, none, some "https://x/2_b.pdf"⟩

def c2_10a : FileRec := ⟨some "10_a.pdf", none, none, none, some "https://x/10_a.pdf"⟩

def c2_noDigits : FileRec := ⟨some "no-digits.pdf", none, none, none, some "https://x/no.pdf"⟩

/-- C2: files inside a group are rendered in the order of the stable sort
on the pair (numeric key, filename): the sorted list is a permutation of
the input, pairwise ordered by that lexicographic key, where the numeric
key of a filename without any digit is the sentinel `10 ^ 9` (which makes
such files sort last), the key of `2_b.pdf` is 2, of `10_a.pdf` is 10 —
so `2_b.pdf`, `10_a.pdf`, `no-digits.pdf` come out in exactly that order
— and leading zeros of a leading digit run are discarded (`0` stays `0`). -/
theorem c2_file_sort_order :
    (∀ files : List FileRec, List.Perm (files_sorted files) files) ∧
    (∀ files : List FileRec, (files_sorted files).Pairwise fun a b => keyLE a b = true) ∧
    (∀ fn : String, (∀ c ∈ fn.data, c.isDigit = false) →
      extract_leading_number fn = 10 ^ 9) ∧
    extract_leading_number "2_b.pdf" = 2 ∧
    extract_leading_number "10_a.pdf" = 10 ∧
    extract_leading_number "no-digits.pdf" = 10 ^ 9 ∧
    extract_leading_number "007_x.pdf" = 7 ∧
    extract_leading_number "000.pdf" = 0 ∧
    extract_leading_number "ab12cd7.pdf" = 12 ∧
    files_sorted [c2_noDigits, c2_10a, c2_2b] = [c2_2b, c2_10a, c2_noDigits] :=
  ⟨files_sorted_perm, files_sorted_pairwise, extract_no_digits,
    by decide, by decide, by decide, by decide, by decide, by decide, by decide⟩

/-- Witness for C2's hypothesis-bearing conjunct at a concrete input. -/
theorem c2_file_sort_order_witness :
    extract_leading_number "nodigitshere.pdf" = 10 ^ 9 :=
  c2_file_sort_order.2.2.1 "nodigitshere.pdf" (by decide)

end GenHtml

namespace GenHtml

open PyStr

/-- C4: the anchor's href is the viewer template
`/pdf-viewer/?file=<quoted url>`, with `&title=<quoted link text>`
appended exactly when the link text is non-empty; the quoting passes an
empty safe set, and the spec's concrete example encodes as claimed.  The
final conjunct records that the rendered `<li>` line uses exactly this
href (escaped for HTML insertion like all other text). -/
theorem c4_viewer_href :
    (∀ u lt : String, lt ≠ "" →
      viewer_href u lt = "/pdf-viewer/?file=" ++ pyQuote u ++ "&title=" ++ pyQuote lt) ∧
    (∀ u : String, viewer_href u "" = "/pdf-viewer/?file=" ++ pyQuote u) ∧
    viewer_href "https://p/a b.pdf" "My File" =
      "/pdf-viewer/?file=https%3A%2F%2Fp%2Fa%20b.pdf&title=My%20File" ∧
    (∀ f : FileRec,
      renderFile f = "                <li><a href=\"" ++
        esc (viewer_href (f.url.getD "") (link_text f)) ++ "\">" ++
        esc (link_text f) ++ "</a></li>") := by
  refine ⟨?_, ?_, by decide, fun f => rfl⟩
  · intro u lt h
    unfold viewer_href
    rw [if_neg h]
    simp [String.append_assoc]
  · intro u
    unfold viewer_href
    rw [if_pos rfl]
    simp

/-- Witness for C4's hypothesis-bearing conjunct at a concrete input. -/
theorem c4_viewer_href_witness :
    viewer_href "https://p/a b.pdf" "My File" =
      "/pdf-viewer/?file=" ++ pyQuote "https://p/a b.pdf" ++ "&title=" ++ pyQuote "My File" :=
  c4_viewer_href.1 "https://p/a b.pdf" "My File" (by decide)

/-- The label the claim describes: the first non-empty value among
`linkText`, `linkTitle`, `title` only (empty when none of the three is
present and non-empty). -/
def c9_claim_label (f : FileRec) : String :=
  (pyOr f.linkText (pyOr f.linkTitle f.title)).getD ""

/-- The spec-side precedence chain for the amended claim: first non-empty
value in order, empty string when the whole list is empty/absent. -/
def firstNonEmpty : List (Option String) → String
  | [] => ""
  | o :: os =>
    match o with
    | some s => if s = "" then firstNonEmpty os else s
    | none => firstNonEmpty os

/-- A file record carrying only `filename` and `url`. -/
def c9_file : FileRec := ⟨some "1_intro.pdf", none, none, none, some "https://x/1.pdf"⟩

/-- C9 counterexample: for a record with no `linkText`/`linkTitle`/`title`
at all, the code's display label is the `filename`, so it is not the
first non-empty value among the three claimed fields (there is none). -/
theorem c9_counterexample :
    link_text c9_file = "1_intro.pdf" ∧
    link_text c9_file ≠ c9_claim_label c9_file ∧
    c9_file.linkText = none ∧ c9_file.linkTitle = none ∧ c9_file.title = none := by
  decide

/-- C9 (amended): the display label used for the anchor text and the
title parameter is the first non-empty value among `linkText`,
`linkTitle`, `title`, `filename`, in that precedence order (empty string
when all four are empty or absent). -/
theorem pyOr_getD_congr (a b₁ b₂ : Option String) (h : b₁.getD "" = b₂.getD "") :
    (pyOr a b₁).getD "" = (pyOr a b₂).getD "" := by
  cases a with
  | none => exact h
  | some s =>
    by_cases hs : s = ""
    · simpa [pyOr, hs] using h
    · simp [pyOr, hs]

theorem pyOr_none_getD (d : Option String) : (pyOr d none).getD "" = d.getD "" := by
  cases d with
  | none => rfl
  | some s => by_cases hs : s = "" <;> simp [pyOr, hs]

/-- The right-nested `pyOr` chain over a list of fields. -/
def chainOr : List (Option String) → Option String
  | [] => none
  | o :: os => pyOr o (chainOr os)

theorem chainOr_getD : ∀ os : List (Option String), (chainOr os).getD "" = firstNonEmpty os := by
  intro os
  induction os with
  | nil => rfl
  | cons o os ih =>
    cases o with
    | none => simpa [chainOr, pyOr, firstNonEmpty] using ih
    | some s => by_cases hs : s = "" <;> simp [chainOr, pyOr, firstNonEmpty, hs, ih]

/-- C9 (amended): the display label used for the anchor text and the
title parameter is the first non-empty value among `linkText`,
`linkTitle`, `title`, `filename`, in that precedence order (empty string
when all four are empty or absent). -/
theorem c9_label_precedence :
    ∀ f : FileRec,
      link_text f = firstNonEmpty [f.linkText, f.linkTitle, f.title, f.filename] := by
  intro f
  have h := pyOr_getD_congr f.linkText _ _
    (pyOr_getD_congr f.linkTitle _ _
      (pyOr_getD_congr f.title _ _ (pyOr_none_getD f.filename).symm))
  exact h.trans (chainOr_getD [f.linkText, f.linkTitle, f.title, f.filename])

end GenHtml

namespace GenHtml

theorem out_path_inj (s t : String) (h : out_path s = out_path t) : s = t := by
  unfold out_path at h
  have hd := congrArg String.data h
  simp only [String.data_append, List.append_assoc] at hd
  exact String.ext (List.append_cancel_right (List.append_cancel_left hd))

theorem writeStep_other (fs : FSys) (path c q : String) (hq : q ≠ path) :
    (writeStep fs path c).1 q = fs q := by
  unfold writeStep
  cases fs path with
  | none => simp [setFile, hq]
  | some old =>
    by_cases h : old = c
    · simp [h]
    · simp [h, setFile, hq]

theorem writeStep_self (fs : FSys) (path c : String) :
    (writeStep fs path c).1 path = some c := by
  unfold writeStep
  cases hf : fs path with
  | none => simp [setFile]
  | some old =>
    by_cases h : old = c
    · simp [h, hf]
    · simp [h, setFile]

/-- A run never touches a path that is not the output path of one of its
subjects. -/
theorem runGen_fs_not_touched :
    ∀ (inputs : List (String × Except String SubjectData)) (fs : FSys) (p : String),
      (∀ x ∈ inputs, out_path x.1 ≠ p) → (runGen inputs fs).fs p = fs p := by
  intro inputs
  induction inputs with
  | nil => intro fs p _; rfl
  | cons x rest ih =>
    intro fs p h
    obtain ⟨s, d⟩ := x
    cases d with
    | error e =>
      exact ih fs p fun y hy => h y (List.mem_cons_of_mem _ hy)
    | ok d =>
      show (runGen rest (writeStep fs (out_path s) (render s d)).1).fs p = fs p
      rw [ih _ p fun y hy => h y (List.mem_cons_of_mem _ hy)]
      exact writeStep_other fs (out_path s) (render s d) p
        fun hq => h (s, Except.ok d) (List.mem_cons_self _ _) (hq ▸ rfl)

/-- After a run, the file of each successfully parsed subject holds
exactly the rendered document. -/
theorem runGen_fs_ok :
    ∀ (inputs : List (String × Except String SubjectData)) (fs : FSys) (s : String)
      (d : SubjectData),
      (inputs.map Prod.fst).Nodup → (s, Except.ok d) ∈ inputs →
      (runGen inputs fs).fs (out_path s) = some (render s d) := by
  intro inputs
  induction inputs with
  | nil => intro fs s d _ hm; cases hm
  | cons x rest ih =>
    intro fs s d hnd hm
    obtain ⟨t, p⟩ := x
    rw [List.map_cons, List.nodup_cons] at hnd
    rcases List.mem_cons.mp hm with heq | hmem
    · have h1 : s = t := congrArg Prod.fst heq
      subst h1
      have h2 : Except.ok (ε := String) d = p := congrArg Prod.snd heq
      subst h2
      show (runGen rest (writeStep fs (out_path s) (render s d)).1).fs (out_path s) = _
      rw [runGen_fs_not_touched rest _ (out_path s)
        fun y hy heq2 => hnd.1 (by
          have hmm := List.mem_map_of_mem Prod.fst hy
          rw [out_path_inj y.1 s heq2] at hmm
          exact hmm)]
      exact writeStep_self fs (out_path s) (render s d)
    · cases p with
      | error e => exact ih fs s d hnd.2 hmem
      | ok dp => exact ih _ s d hnd.2 hmem

end GenHtml

namespace GenHtml

/-- When every subject's file already holds its rendered document, a run
changes nothing and reports every subject unchanged. -/
theorem runGen_all_unchanged :
    ∀ (inputs : List (String × Except String SubjectData)) (fs : FSys),
      (∀ x ∈ inputs, ∀ d : SubjectData, x.2 = Except.ok d →
        fs (out_path x.1) = some (render x.1 d)) →
      (∀ x ∈ inputs, ∃ d : SubjectData, x.2 = Except.ok d) →
      (runGen inputs fs).fs = fs ∧
      (runGen inputs fs).lines = inputs.map fun x => "Unchanged template " ++ out_path x.1 := by
  intro inputs
  induction inputs with
  | nil => intro fs _ _; exact ⟨rfl, rfl⟩
  | cons x rest ih =>
    intro fs hfs hok
    obtain ⟨s, p⟩ := x
    obtain ⟨d, rfl⟩ := hok (s, p) (List.mem_cons_self _ _)
    have hcur : fs (out_path s) = some (render s d) :=
      hfs (s, Except.ok d) (List.mem_cons_self _ _) d rfl
    have hws : writeStep fs (out_path s) (render s d) =
        (fs, "Unchanged template " ++ out_path s) := by
      unfold writeStep
      rw [hcur]
      simp
    have hrest := ih fs (fun y hy => hfs y (List.mem_cons_of_mem _ hy))
      (fun y hy => hok y (List.mem_cons_of_mem _ hy))
    constructor
    · show (runGen rest (writeStep fs (out_path s) (render s d)).1).fs = fs
      rw [hws]
      exact hrest.1
    · show (writeStep fs (out_path s) (render s d)).2 ::
        (runGen rest (writeStep fs (out_path s) (render s d)).1).lines = _
      rw [hws]
      simp only [List.map_cons]
      exact congrArg _ hrest.2

/-- C7: the write step's three-way postcondition.  If the destination
holds exactly the new content, nothing changes and the `Unchanged
template` line is printed; if it holds different bytes, the file is
replaced (all other paths untouched) and `Updated template` is printed;
if it is absent, the file is created (all other paths untouched) and
`Wrote template` is printed. -/
theorem c7_write_postcondition :
    ∀ (fs : FSys) (path content : String),
      (fs path = some content →
        writeStep fs path content = (fs, "Unchanged template " ++ path)) ∧
      (∀ old, fs path = some old → old ≠ content →
        (writeStep fs path content).1 path = some content ∧
        (∀ q, q ≠ path → (writeStep fs path content).1 q = fs q) ∧
        (writeStep fs path content).2 = "Updated template " ++ path) ∧
      (fs path = none →
        (writeStep fs path content).1 path = some content ∧
        (∀ q, q ≠ path → (writeStep fs path content).1 q = fs q) ∧
        (writeStep fs path content).2 = "Wrote template " ++ path) := by
  intro fs path content
  refine ⟨?_, ?_, ?_⟩
  · intro h
    unfold writeStep
    rw [h]
    simp
  · intro old hold hne
    unfold writeStep
    rw [hold]
    simp only [if_neg hne]
    exact ⟨by simp [setFile], fun q hq => by simp [setFile, hq], by trivial⟩
  · intro h
    unfold writeStep
    rw [h]
    exact ⟨by simp [setFile], fun q hq => by simp [setFile, hq], rfl⟩

/-- A one-file template directory for the C7 witness. -/
def c7_fs : FSys := fun q => if q = "templates/wd.html" then some "x" else none

/-- Witness for C7 at a concrete state: the unchanged branch. -/
theorem c7_write_postcondition_witness :
    writeStep c7_fs "templates/wd.html" "x" =
      (c7_fs, "Unchanged template templates/wd.html") :=
  (c7_write_postcondition c7_fs "templates/wd.html" "x").1 (by decide)

/-- C1: idempotence of the Generator.  For distinct subjects whose JSON
all parses, running the main loop a second time on the unchanged inputs
leaves every output file byte-for-byte as the first run wrote it (the
directory state is literally unchanged) and reports `Unchanged template`
for every subject, the existing file having been compared with the
freshly generated content before any overwrite. -/
theorem c1_generator_idempotent :
    ∀ (inputs : List (String × Except String SubjectData)) (fs0 : FSys),
      (inputs.map Prod.fst).Nodup →
      (∀ x ∈ inputs, ∃ d : SubjectData, x.2 = Except.ok d) →
      (runGen inputs (runGen inputs fs0).fs).fs = (runGen inputs fs0).fs ∧
      (runGen inputs (runGen inputs fs0).fs).lines =
        inputs.map fun x => "Unchanged template " ++ out_path x.1 := by
  intro inputs fs0 hnd hok
  refine runGen_all_unchanged inputs (runGen inputs fs0).fs ?_ hok
  intro x hx d hd
  have : (x.1, Except.ok d) ∈ inputs := by
    have hx2 : x = (x.1, Except.ok d) := by
      obtain ⟨a, b⟩ := x
      simpa using hd
    exact hx2 ▸ hx
  exact runGen_fs_ok inputs fs0 x.1 d hnd this

/-- Concrete inputs for the C1 witness. -/
def c1_inputs : List (String × Except String SubjectData) :=
  [("wd", Except.ok ⟨[]⟩),
   ("cfp", Except.ok ⟨[⟨some "1", [⟨some "Notes", [⟨some "1_a.pdf", some "A", none, none,
     some "https://x/1_a.pdf"⟩]⟩]⟩]⟩)]

def c1_fs0 : FSys := fun _ => none

/-- Witness for C1 at concrete inputs. -/
theorem c1_generator_idempotent_witness :
    (runGen c1_inputs (runGen c1_inputs c1_fs0).fs).fs = (runGen c1_inputs c1_fs0).fs ∧
    (runGen c1_inputs (runGen c1_inputs c1_fs0).fs).lines =
      c1_inputs.map fun x => "Unchanged template " ++ out_path x.1 :=
  c1_generator_idempotent c1_inputs c1_fs0 (by decide)
    (by
      intro x hx
      rcases List.mem_cons.mp hx with rfl | hx2
      · exact ⟨_, rfl⟩
      · rcases List.mem_cons.mp hx2 with rfl | hx3
        · exact ⟨_, rfl⟩
        · cases hx3)

end GenHtml

namespace GenHtml

/-- The diagnostic printed for a malformed subject appears in the run's
console lines. -/
theorem runGen_skip_line :
    ∀ (inputs : List (String × Except String SubjectData)) (fs : FSys) (s e : String),
      (s, Except.error e) ∈ inputs →
      ("Skipping data/" ++ s ++ ".json: invalid json (" ++ e ++ ")") ∈
        (runGen inputs fs).lines := by
  intro inputs
  induction inputs with
  | nil => intro fs s e hm; cases hm
  | cons x rest ih =>
    intro fs s e hm
    obtain ⟨t, p⟩ := x
    rcases List.mem_cons.mp hm with heq | hmem
    · have h1 : s = t := congrArg Prod.fst heq
      subst h1
      have h2 : Except.error (α := SubjectData) e = p := congrArg Prod.snd heq
      subst h2
      exact List.mem_cons_self _ _
    · cases p with
      | error e2 => exact List.mem_cons_of_mem _ (ih fs s e hmem)
      | ok d => exact List.mem_cons_of_mem _ (ih _ s e hmem)

/-- Removing a malformed subject from the input list leaves the final
template directory identical at every path. -/
theorem runGen_fs_filter :
    ∀ (inputs : List (String × Except String SubjectData)) (fs : FSys) (s e : String),
      (inputs.map Prod.fst).Nodup → (s, Except.error e) ∈ inputs →
      ∀ q, (runGen inputs fs).fs q =
        (runGen (inputs.filter fun x => x.1 != s) fs).fs q := by
  intro inputs
  induction inputs with
  | nil => intro fs s e _ hm; cases hm
  | cons x rest ih =>
    intro fs s e hnd hm q
    obtain ⟨t, p⟩ := x
    rw [List.map_cons, List.nodup_cons] at hnd
    rcases List.mem_cons.mp hm with heq | hmem
    · have h1 : s = t := congrArg Prod.fst heq
      subst h1
      have h2 : Except.error (α := SubjectData) e = p := congrArg Prod.snd heq
      subst h2
      have hhead : ((s, Except.error (α := SubjectData) e).1 != s) = false := by simp
      rw [List.filter_cons, hhead]
      have hrest : rest.filter (fun x => x.1 != s) = rest := by
        refine List.filter_eq_self.mpr fun y hy => ?_
        have hmm := List.mem_map_of_mem Prod.fst hy
        have hne : y.1 ≠ s := fun h => hnd.1 (h ▸ hmm)
        simpa using hne
      rw [hrest]
      rfl
    · have hts : t ≠ s := by
        intro h
        subst h
        have hmm := List.mem_map_of_mem Prod.fst hmem
        exact hnd.1 hmm
      have hhead : ((t, p).1 != s) = true := by simpa using hts
      rw [List.filter_cons, hhead]
      cases p with
      | error e2 =>
        exact ih fs s e hnd.2 hmem q
      | ok d =>
        exact ih _ s e hnd.2 hmem q

/-- C8: per-subject isolation of parse failures.  A malformed subject
contributes its `Skipping ... invalid json` diagnostic, writes nothing
(its output path is untouched by the whole run), and the directory state
at every path is exactly what the run without that subject produces, so
a parse failure never affects any other subject's output. -/
theorem c8_parse_failure_isolation :
    ∀ (inputs : List (String × Except String SubjectData)) (fs0 : FSys) (s e : String),
      (inputs.map Prod.fst).Nodup → (s, Except.error e) ∈ inputs →
      (runGen inputs fs0).fs (out_path s) = fs0 (out_path s) ∧
      ("Skipping data/" ++ s ++ ".json: invalid json (" ++ e ++ ")") ∈
        (runGen inputs fs0).lines ∧
      ∀ q, (runGen inputs fs0).fs q =
        (runGen (inputs.filter fun x => x.1 != s) fs0).fs q := by
  intro inputs fs0 s e hnd hm
  refine ⟨?_, runGen_skip_line inputs fs0 s e hm, runGen_fs_filter inputs fs0 s e hnd hm⟩
  rw [runGen_fs_filter inputs fs0 s e hnd hm]
  refine runGen_fs_not_touched _ fs0 (out_path s) ?_
  intro y hy
  have hys : y.1 ≠ s := by simpa using (List.of_mem_filter hy)
  exact fun hc => hys (out_path_inj y.1 s hc)

/-- Concrete inputs for the C8 witness: one malformed subject among
well-formed ones. -/
def c8_inputs : List (String × Except String SubjectData) :=
  [("bad", Except.error "boom"), ("wd", Except.ok ⟨[]⟩)]

def c8_fs0 : FSys := fun _ => none

/-- Witness for C8 at concrete inputs. -/
theorem c8_parse_failure_isolation_witness :
    (runGen c8_inputs c8_fs0).fs (out_path "bad") = c8_fs0 (out_path "bad") ∧
    ("Skipping data/bad.json: invalid json (boom)") ∈ (runGen c8_inputs c8_fs0).lines ∧
    ∀ q, (runGen c8_inputs c8_fs0).fs q =
      (runGen (c8_inputs.filter fun x => x.1 != "bad") c8_fs0).fs q := by
  have h := c8_parse_failure_isolation c8_inputs c8_fs0 "bad" "boom" (by decide)
    (List.mem_cons_self _ _)
  exact h

/-- After a run, the recorded generated document of a parsed subject is
the pure render of its own data. -/
theorem runGen_gen_lookup :
    ∀ (inputs : List (String × Except String SubjectData)) (fs : FSys) (s : String)
      (d : SubjectData),
      (inputs.map Prod.fst).Nodup → (s, Except.ok d) ∈ inputs →
      ((runGen inputs fs).gen).lookup s = some (render s d) := by
  intro inputs
  induction inputs with
  | nil => intro fs s d _ hm; cases hm
  | cons x rest ih =>
    intro fs s d hnd hm
    obtain ⟨t, p⟩ := x
    rw [List.map_cons, List.nodup_cons] at hnd
    rcases List.mem_cons.mp hm with heq | hmem
    · have h1 : s = t := congrArg Prod.fst heq
      subst h1
      have h2 : Except.ok (ε := String) d = p := congrArg Prod.snd heq
      subst h2
      show List.lookup s ((s, render s d) :: (runGen rest _).gen) = some (render s d)
      simp [List.lookup]
    · cases p with
      | error e =>
        exact ih fs s d hnd.2 hmem
      | ok dp =>
        have hts : t ≠ s := by
          intro h
          subst h
          have hmm := List.mem_map_of_mem Prod.fst hmem
          exact hnd.1 hmm
        show List.lookup s ((t, render t dp) :: (runGen rest _).gen) = some (render s d)
        rw [List.lookup_cons]
        have : (s == t) = false := by simpa using fun h => hts h.symm
        rw [this]
        exact ih _ s d hnd.2 hmem

/-- C10: per-subject noninterference.  The document generated for a
subject is the pure function `render` of its identifier and its own
parsed data alone; hence two runs over arbitrary input directories and
arbitrary pre-existing template directories that agree on one subject's
JSON produce byte-identical generated content for that subject. -/
theorem c10_noninterference :
    ∀ (inputs₁ inputs₂ : List (String × Except String SubjectData)) (fs₁ fs₂ : FSys)
      (s : String) (d : SubjectData),
      (inputs₁.map Prod.fst).Nodup → (inputs₂.map Prod.fst).Nodup →
      (s, Except.ok d) ∈ inputs₁ → (s, Except.ok d) ∈ inputs₂ →
      ((runGen inputs₁ fs₁).gen).lookup s = some (render s d) ∧
      ((runGen inputs₁ fs₁).gen).lookup s = ((runGen inputs₂ fs₂).gen).lookup s := by
  intro inputs₁ inputs₂ fs₁ fs₂ s d hnd₁ hnd₂ hm₁ hm₂
  have h1 := runGen_gen_lookup inputs₁ fs₁ s d hnd₁ hm₁
  have h2 := runGen_gen_lookup inputs₂ fs₂ s d hnd₂ hm₂
  exact ⟨h1, h1.trans h2.symm⟩

deriving instance DecidableEq for Except

/-- Witness for C10: two different directories sharing one subject. -/
theorem c10_noninterference_witness :
    ((runGen [("wd", Except.ok ⟨[]⟩), ("x", Except.ok ⟨[]⟩)] c1_fs0).gen).lookup "wd" =
      some (render "wd" ⟨[]⟩) ∧
    ((runGen [("wd", Except.ok ⟨[]⟩), ("x", Except.ok ⟨[]⟩)] c1_fs0).gen).lookup "wd" =
      ((runGen [("y", Except.error "bad"), ("wd", Except.ok ⟨[]⟩)] c8_fs0).gen).lookup "wd" :=
  c10_noninterference [("wd", Except.ok ⟨[]⟩), ("x", Except.ok ⟨[]⟩)]
    [("y", Except.error "bad"), ("wd", Except.ok ⟨[]⟩)] c1_fs0 c8_fs0 "wd" ⟨[]⟩
    (by decide) (by decide) (by decide) (by decide)

end GenHtml

namespace UpdateLinks

open PyStr

/-- The "meaningful base name" of the claim: `'_'.join(base_parts)`. -/
def meaningfulBaseName (old : String) : String := pyJoin "_" (base_parts old)

/-- The retry key: the first segment of the meaningful base name. -/
def firstSegment (old : String) : String := (base_parts old).headD ""

/-- The search cascade exactly as the claim describes it: glob the old
path's directory for a `.pdf` whose name surrounds the base name, take
the first match; failing that, retry with the first segment only;
failing that, give up. -/
def c5_lookup (fs : StaticFS) (old : String) : Option String :=
  match (globPdf fs (pyDirname old) (meaningfulBaseName old)).head? with
  | some m => some (pyReplaceOnce m "static/" "")
  | none =>
    match (globPdf fs (pyDirname old) (firstSegment old)).head? with
    | some m => some (pyReplaceOnce m "static/" "")
    | none => none

theorem globTokMatch_star_iff (ps : List GlobTok) (s : List Char) :
    globTokMatch (GlobTok.star :: ps) s = true ↔
      ∃ a t, a ++ t = s ∧ globTokMatch ps t = true := by
  show (s.tails.any fun t => globTokMatch ps t) = true ↔ _
  rw [List.any_eq_true]
  constructor
  · rintro ⟨t, hmem, ht⟩
    obtain ⟨a, ha⟩ := (List.mem_tails t s).mp hmem
    exact ⟨a, t, ha, ht⟩
  · rintro ⟨a, t, ha, ht⟩
    exact ⟨t, (List.mem_tails t s).mpr ⟨a, ha⟩, ht⟩

theorem globTokMatch_lits (B : List Char) (ps : List GlobTok) :
    ∀ s, globTokMatch (B.map GlobTok.lit ++ ps) s = true ↔
      ∃ t, s = B ++ t ∧ globTokMatch ps t = true := by
  induction B with
  | nil =>
    intro s
    simp
  | cons b B ih =>
    intro s
    cases s with
    | nil =>
      simp only [List.map_cons, List.cons_append, globTokMatch]
      constructor
      · intro h; cases h
      · rintro ⟨t, ht, _⟩; cases ht
    | cons c cs =>
      simp only [List.map_cons, List.cons_append, globTokMatch, Bool.and_eq_true,
        decide_eq_true_eq]
      constructor
      · rintro ⟨rfl, h2⟩
        obtain ⟨t, rfl, ht⟩ := (ih cs).mp h2
        exact ⟨t, rfl, ht⟩
      · rintro ⟨t, heq, ht⟩
        injection heq with h1 h2
        subst h1
        subst h2
        exact ⟨rfl, (ih (B ++ t)).mpr ⟨t, rfl, ht⟩⟩

theorem globTokMatch_exact (E : List Char) (s : List Char) :
    globTokMatch (E.map GlobTok.lit) s = true ↔ s = E := by
  have h := globTokMatch_lits E [] s
  rw [List.append_nil] at h
  rw [h]
  constructor
  · rintro ⟨t, rfl, ht⟩
    have : t = [] := by simpa [globTokMatch] using ht
    simp [this]
  · rintro rfl
    exact ⟨[], by simp, rfl⟩

/-- The compiled sandwich pattern `*B*E` (`B`, `E` all literals) matches
exactly the strings of the shape `a ++ B ++ b ++ E`. -/
theorem globTokMatch_sandwich (B E : List Char) (s : List Char) :
    globTokMatch
        (GlobTok.star :: (B.map GlobTok.lit ++ GlobTok.star :: E.map GlobTok.lit)) s = true ↔
      ∃ a b, s = a ++ (B ++ (b ++ E)) := by
  rw [globTokMatch_star_iff]
  constructor
  · rintro ⟨a, t, rfl, ht⟩
    obtain ⟨u, rfl, hu⟩ := (globTokMatch_lits B (GlobTok.star :: E.map GlobTok.lit) t).mp ht
    obtain ⟨b, v, rfl, hv⟩ := (globTokMatch_star_iff (E.map GlobTok.lit) u).mp hu
    rw [globTokMatch_exact E v] at hv
    subst hv
    exact ⟨a, b, rfl⟩
  · rintro ⟨a, b, rfl⟩
    refine ⟨a, B ++ (b ++ E), rfl, ?_⟩
    refine (globTokMatch_lits B (GlobTok.star :: E.map GlobTok.lit) _).mpr ⟨b ++ E, rfl, ?_⟩
    refine (globTokMatch_star_iff (E.map GlobTok.lit) (b ++ E)).mpr ⟨b, E, rfl, ?_⟩
    exact (globTokMatch_exact E E).mpr rfl

/-- Characters `fnmatch.translate` treats specially at the top level. -/
def globMeta (c : Char) : Prop := c = '*' ∨ c = '?' ∨ c = '['

instance (c : Char) : Decidable (globMeta c) := by
  unfold globMeta
  infer_instance

theorem parseGlobAux_lit_cons (fuel : Nat) (b : Char) (rest : List Char)
    (h1 : ¬ b = '*') (h2 : ¬ b = '?') (h3 : ¬ b = '[') :
    parseGlobAux (fuel + 1) (b :: rest) = GlobTok.lit b :: parseGlobAux fuel rest := by
  simp [parseGlobAux, h1, h2, h3]

/-- A metacharacter-free run of pattern text compiles to its literal
tokens. -/
theorem parseGlobAux_lits (B : List Char) (hB : ∀ c ∈ B, ¬ globMeta c) :
    ∀ (rest : List Char) (fuel : Nat),
      parseGlobAux (B.length + fuel) (B ++ rest) = B.map GlobTok.lit ++ parseGlobAux fuel rest := by
  induction B with
  | nil => intro rest fuel; simp
  | cons b B ih =>
    intro rest fuel
    have hb := hB b (List.mem_cons_self _ _)
    unfold globMeta at hb
    push_neg at hb
    have hlen : (b :: B).length + fuel = (B.length + fuel) + 1 := by
      simp [List.length_cons]
      omega
    rw [hlen]
    show parseGlobAux ((B.length + fuel) + 1) (b :: (B ++ rest)) = _
    rw [parseGlobAux_lit_cons (B.length + fuel) b (B ++ rest) hb.1 hb.2.1 hb.2.2]
    rw [ih (fun c hc => hB c (List.mem_cons_of_mem _ hc)) rest fuel]
    rfl
theorem containsSub_iff (hay needle : String) :
    containsSub hay needle = true ↔ ∃ a b, hay.data = a ++ needle.data ++ b := by
  unfold containsSub
  rw [List.any_eq_true]
  constructor
  · rintro ⟨t, hmem, hpre⟩
    obtain ⟨a, ha⟩ := (List.mem_tails t hay.data).mp hmem
    obtain ⟨b, hb⟩ := List.isPrefixOf_iff_prefix.mp hpre
    exact ⟨a, b, by rw [← ha, ← hb, List.append_assoc]⟩
  · rintro ⟨a, b, hab⟩
    refine ⟨needle.data ++ b, (List.mem_tails _ _).mpr ⟨a, by rw [hab, List.append_assoc]⟩, ?_⟩
    exact List.isPrefixOf_iff_prefix.mpr ⟨b, rfl⟩

end UpdateLinks

namespace UpdateLinks

open PyStr

/-- Decomposing a name around the `*base*.pdf` sandwich: it is exactly
"ends with `.pdf` and contains `base` before that suffix". -/
theorem sandwich_decomp (base name : String) :
    (∃ a b, name.data = a ++ (base.data ++ (b ++ ".pdf".data))) ↔
      (pyEndsWith name ".pdf" = true ∧
        containsSub ⟨name.data.take (name.data.length - 4)⟩ base = true) := by
  constructor
  · rintro ⟨a, b, hab⟩
    have hlen : name.data = (a ++ base.data ++ b) ++ ".pdf".data := by
      rw [hab]
      simp [List.append_assoc]
    constructor
    · unfold pyEndsWith
      exact List.isSuffixOf_iff_suffix.mpr ⟨a ++ base.data ++ b, hlen.symm⟩
    · have htake : name.data.take (name.data.length - 4) = a ++ base.data ++ b := by
        rw [hlen]
        exact List.take_left' (by simp; omega)
      rw [containsSub_iff]
      exact ⟨a, b, htake⟩
  · rintro ⟨hsuf, hcon⟩
    unfold pyEndsWith at hsuf
    obtain ⟨t, ht⟩ := List.isSuffixOf_iff_suffix.mp hsuf
    obtain ⟨a, b, hab⟩ := (containsSub_iff _ _).mp hcon
    have htake : name.data.take (name.data.length - 4) = t := by
      rw [← ht]
      exact List.take_left' (by simp)
    have hab2 : name.data.take (name.data.length - 4) = a ++ base.data ++ b := hab
    rw [htake] at hab2
    refine ⟨a, b, ?_⟩
    rw [← ht, hab2]
    simp [List.append_assoc]

/-- The last pattern component built by `find_new_file`'s glob calls,
characterized: for a star-free base, `*base*.pdf` matches exactly the
non-hidden names ending in `.pdf` that contain `base` before the
suffix. -/
theorem parseGlobAux_star_cons (fuel : Nat) (rest : List Char) :
    parseGlobAux (fuel + 1) ('*' :: rest) = GlobTok.star :: parseGlobAux fuel rest := by
  simp [parseGlobAux]

/-- The glob patterns `find_new_file` builds compile, for a
metacharacter-free base, to the literal sandwich star/base/star/.pdf. -/
theorem parseGlob_sandwichPat (base : String) (hB : ∀ c ∈ base.data, ¬ globMeta c) :
    parseGlob ("*" ++ base ++ "*.pdf") =
      GlobTok.star ::
        (base.data.map GlobTok.lit ++ GlobTok.star :: ".pdf".data.map GlobTok.lit) := by
  have hpat : ("*" ++ base ++ "*.pdf").data = '*' :: (base.data ++ '*' :: ".pdf".data) := by
    simp [List.append_assoc]
  unfold parseGlob
  rw [hpat]
  have hlen : ('*' :: (base.data ++ '*' :: ".pdf".data)).length = (base.data.length + 5) + 1 := by
    simp
  rw [hlen]
  rw [parseGlobAux_star_cons (base.data.length + 5) (base.data ++ '*' :: ".pdf".data)]
  rw [parseGlobAux_lits base.data hB ('*' :: ".pdf".data) 5]
  rfl

theorem globComp_char (base name : String) (hB : ∀ c ∈ base.data, ¬ globMeta c) :
    globComp ("*" ++ base ++ "*.pdf") name = true ↔
      (pyStartsWith name "." = false ∧ pyEndsWith name ".pdf" = true ∧
        containsSub ⟨name.data.take (name.data.length - 4)⟩ base = true) := by
  have hpat : ("*" ++ base ++ "*.pdf").data = '*' :: (base.data ++ '*' :: ".pdf".data) := by
    simp [List.append_assoc]
  have hps : pyStartsWith ("*" ++ base ++ "*.pdf") "." = false := by
    unfold pyStartsWith
    rw [hpat]
    rfl
  unfold globComp
  rw [hps, parseGlob_sandwichPat base hB]
  rw [Bool.or_false, Bool.and_eq_true, Bool.not_eq_true']
  rw [globTokMatch_sandwich base.data ".pdf".data name.data]
  rw [sandwich_decomp base name]

theorem find_new_file_eq_c5_lookup :
    ∀ (fs : StaticFS) (old : String), base_parts old ≠ [] →
      find_new_file fs old = c5_lookup fs old := by
  intro fs old h
  cases hb : base_parts old with
  | nil => exact absurd hb h
  | cons a l =>
    unfold find_new_file c5_lookup meaningfulBaseName firstSegment
    rw [hb]
    rfl

/-- C5: for an old path whose segment prefix before the `UQ25` marker is
non-empty, `find_new_file` is exactly the claimed cascade: glob the old
path's directory with the `'_'`-joined prefix as base name, take the
first match; retry with the first segment only; else give up (the
subject-guess branch is not entered).  The second conjunct pins down
what the glob's final component matches when the base name carries no
`fnmatch` metacharacter (`*`, `?`, `[`): exactly a non-hidden `.pdf`
name containing the base name as a substring before the suffix — the
claim's "containing the base name as a substring" reading.  For a base
name with metacharacters the matcher follows `fnmatch`'s wildcard
semantics instead, which the cascade conjunct covers through the same
`globPdf`. -/
theorem c5_find_new_file_cascade :
    (∀ (fs : StaticFS) (old : String), base_parts old ≠ [] →
      find_new_file fs old = c5_lookup fs old) ∧
    (∀ base name : String, (∀ c ∈ base.data, ¬ globMeta c) →
      (globComp ("*" ++ base ++ "*.pdf") name = true ↔
        (pyStartsWith name "." = false ∧ pyEndsWith name ".pdf" = true ∧
          containsSub ⟨name.data.take (name.data.length - 4)⟩ base = true))) :=
  ⟨find_new_file_eq_c5_lookup, globComp_char⟩

/-- Witness for C5 at the spec's §8 repair example filenames. -/
theorem c5_find_new_file_cascade_witness :
    find_new_file ["x/2024_report_final.pdf"] "x/2024_UQ25abc_report.pdf" =
      c5_lookup ["x/2024_report_final.pdf"] "x/2024_UQ25abc_report.pdf" ∧
    (globComp ("*" ++ "2024" ++ "*.pdf") "2024_report_final.pdf" = true ↔
      (pyStartsWith "2024_report_final.pdf" "." = false ∧
        pyEndsWith "2024_report_final.pdf" ".pdf" = true ∧
        containsSub ⟨"2024_report_final.pdf".data.take
          ("2024_report_final.pdf".data.length - 4)⟩ "2024" = true)) :=
  ⟨c5_find_new_file_cascade.1 ["x/2024_report_final.pdf"] "x/2024_UQ25abc_report.pdf"
      (by decide),
    c5_find_new_file_cascade.2 "2024" "2024_report_final.pdf" (by decide)⟩

end UpdateLinks

namespace UpdateLinks

open PyStr

theorem repairStep_logs_grow (fs : StaticFS) (acc : String × Nat × List String)
    (old0 : String) : acc.2.2 <+: (repairStep fs acc old0).2.2 := by
  unfold repairStep
  by_cases h : staticExists fs (stripSlash old0) = true
  · rw [if_pos h]
  · rw [if_neg h]
    cases find_new_file fs (stripSlash old0) with
    | some newp => exact List.prefix_append _ _
    | none => exact List.prefix_append _ _

theorem foldl_logs_grow (fs : StaticFS) :
    ∀ (hrefs : List String) (acc : String × Nat × List String),
      acc.2.2 <+: (hrefs.foldl (repairStep fs) acc).2.2 := by
  intro hrefs
  induction hrefs with
  | nil => intro acc; exact List.prefix_rfl
  | cons h rest ih =>
    intro acc
    exact (repairStep_logs_grow fs acc h).trans (ih (repairStep fs acc h))

theorem foldl_warning_mem (fs : StaticFS) :
    ∀ (hrefs : List String) (acc : String × Nat × List String) (old0 : String),
      old0 ∈ hrefs →
      staticExists fs (stripSlash old0) = false →
      find_new_file fs (stripSlash old0) = none →
      ("Warning: Could not find replacement for " ++ stripSlash old0) ∈
        (hrefs.foldl (repairStep fs) acc).2.2 := by
  intro hrefs
  induction hrefs with
  | nil => intro acc old0 hm; cases hm
  | cons h rest ih =>
    intro acc old0 hm hex hnone
    rcases List.mem_cons.mp hm with rfl | hmem
    · have hstep : ("Warning: Could not find replacement for " ++ stripSlash old0) ∈
          (repairStep fs acc old0).2.2 := by
        unfold repairStep
        rw [if_neg (by simp [hex]), hnone]
        exact List.mem_append_right _ (List.mem_singleton.mpr rfl)
      exact (foldl_logs_grow fs rest (repairStep fs acc old0)).subset hstep
    · exact ih (repairStep fs acc h) old0 hmem hex hnone

theorem foldl_updates_content (fs : StaticFS) :
    ∀ (hrefs : List String) (acc : String × Nat × List String),
      acc.2.1 ≤ (hrefs.foldl (repairStep fs) acc).2.1 ∧
      ((hrefs.foldl (repairStep fs) acc).2.1 = acc.2.1 →
        (hrefs.foldl (repairStep fs) acc).1 = acc.1) := by
  intro hrefs
  induction hrefs with
  | nil => intro acc; exact ⟨Nat.le_refl _, fun _ => rfl⟩
  | cons h rest ih =>
    intro acc
    have hstep : (repairStep fs acc h).2.1 = acc.2.1 ∧ (repairStep fs acc h).1 = acc.1 ∨
        acc.2.1 + 1 ≤ (repairStep fs acc h).2.1 := by
      unfold repairStep
      by_cases hex : staticExists fs (stripSlash h) = true
      · rw [if_pos hex]; exact Or.inl ⟨rfl, rfl⟩
      · rw [if_neg hex]
        cases find_new_file fs (stripSlash h) with
        | some newp => exact Or.inr (Nat.le_refl _)
        | none => exact Or.inl ⟨rfl, rfl⟩
    obtain ⟨hle, heq⟩ := ih (repairStep fs acc h)
    rw [List.foldl_cons]
    rcases hstep with ⟨h1, h2⟩ | h1
    · refine ⟨?_, ?_⟩
      · rw [← h1]
        exact hle
      · intro hz
        rw [← h1] at hz
        rw [heq hz, h2]
    · refine ⟨?_, ?_⟩
      · omega
      · intro hz
        omega

theorem foldl_content_eq (fs : StaticFS) :
    ∀ (hrefs : List String) (acc : String × Nat × List String),
      (hrefs.foldl (repairStep fs) acc).1 = hrefs.foldl (contentStep fs) acc.1 := by
  intro hrefs
  induction hrefs with
  | nil => intro acc; rfl
  | cons h rest ih =>
    intro acc
    have hstep : (repairStep fs acc h).1 = contentStep fs acc.1 h := by
      unfold repairStep contentStep
      by_cases hex : staticExists fs (stripSlash h) = true
      · rw [if_pos hex, if_pos hex]
      · rw [if_neg hex, if_neg hex]
        cases find_new_file fs (stripSlash h) with
        | some newp => rfl
        | none => rfl
    rw [List.foldl_cons, List.foldl_cons, ih (repairStep fs acc h), hstep]

/-- An href that already resolves, or for which no replacement is found,
contributes no change to the document text. -/
theorem contentStep_id (fs : StaticFS) (c : String) (old0 : String)
    (h : (!staticExists fs (stripSlash old0) &&
      (find_new_file fs (stripSlash old0)).isSome) = false) :
    contentStep fs c old0 = c := by
  unfold contentStep
  by_cases hex : staticExists fs (stripSlash old0) = true
  · rw [if_pos hex]
  · rw [if_neg hex]
    cases hf : find_new_file fs (stripSlash old0) with
    | none => rfl
    | some v =>
      rw [Bool.and_eq_false_iff] at h
      rcases h with h1 | h1
      · simp at h1
        exact absurd h1 hex
      · rw [hf] at h1
        simp at h1

theorem foldl_content_filter (fs : StaticFS) :
    ∀ (hrefs : List String) (c : String),
      hrefs.foldl (contentStep fs) c =
        (hrefs.filter fun h =>
          !staticExists fs (stripSlash h) && (find_new_file fs (stripSlash h)).isSome).foldl
          (contentStep fs) c := by
  intro hrefs
  induction hrefs with
  | nil => intro c; rfl
  | cons h rest ih =>
    intro c
    rw [List.foldl_cons, List.filter_cons]
    by_cases hp : (!staticExists fs (stripSlash h) &&
        (find_new_file fs (stripSlash h)).isSome) = true
    · rw [if_pos hp, List.foldl_cons]
      exact ih (contentStep fs c h)
    · rw [if_neg hp]
      rw [contentStep_id fs c h (Bool.of_not_eq_true hp)]
      exact ih c

end UpdateLinks

namespace UpdateLinks

open PyStr

/-- C6: failure handling and write policy of the Repairer.  Every PDF
href whose path is missing and for which `find_new_file` gives up is
logged as a warning and contributes no change to the document (the final
text is the fold of the replacement step over only the resolved hrefs);
the document is written back iff at least one replacement occurred; with
zero replacements the text is byte-for-byte the input and `No updates
needed` is reported, otherwise the total count is reported. -/
theorem c6_unresolved_and_write_policy :
    ∀ (fs : StaticFS) (html_file content : String),
      (∀ old0 ∈ scanHrefs content,
        staticExists fs (stripSlash old0) = false →
        find_new_file fs (stripSlash old0) = none →
        ("Warning: Could not find replacement for " ++ stripSlash old0) ∈
          (update_html_file fs html_file content).logs) ∧
      ((update_html_file fs html_file content).wrote = true ↔
        1 ≤ (update_html_file fs html_file content).updates) ∧
      ((update_html_file fs html_file content).updates = 0 →
        (update_html_file fs html_file content).content = content ∧
        (update_html_file fs html_file content).wrote = false ∧
        ("No updates needed for " ++ html_file) ∈
          (update_html_file fs html_file content).logs) ∧
      (1 ≤ (update_html_file fs html_file content).updates →
        ("Updated " ++ toString (update_html_file fs html_file content).updates ++
          " links in " ++ html_file) ∈ (update_html_file fs html_file content).logs) ∧
      (update_html_file fs html_file content).content =
        ((scanHrefs content).filter fun h =>
          !staticExists fs (stripSlash h) && (find_new_file fs (stripSlash h)).isSome).foldl
          (contentStep fs) content := by
  intro fs html_file content
  have hcontent : (update_html_file fs html_file content).content =
      ((scanHrefs content).foldl (repairStep fs) (content, 0, [])).1 := by
    unfold update_html_file
    by_cases hpos : 0 < ((scanHrefs content).foldl (repairStep fs) (content, 0, [])).2.1
    · rw [if_pos hpos]
    · rw [if_neg hpos]
  have hupd : (update_html_file fs html_file content).updates =
      ((scanHrefs content).foldl (repairStep fs) (content, 0, [])).2.1 := by
    unfold update_html_file
    by_cases hpos : 0 < ((scanHrefs content).foldl (repairStep fs) (content, 0, [])).2.1
    · rw [if_pos hpos]
    · rw [if_neg hpos]
  have hlogs : ((scanHrefs content).foldl (repairStep fs) (content, 0, [])).2.2 <+:
      (update_html_file fs html_file content).logs := by
    unfold update_html_file
    by_cases hpos : 0 < ((scanHrefs content).foldl (repairStep fs) (content, 0, [])).2.1
    · rw [if_pos hpos]
      exact List.prefix_append _ _
    · rw [if_neg hpos]
      exact List.prefix_append _ _
  refine ⟨?_, ?_, ?_, ?_, ?_⟩
  · intro old0 hm hex hnone
    exact hlogs.subset
      (foldl_warning_mem fs (scanHrefs content) (content, 0, []) old0 hm hex hnone)
  · unfold update_html_file
    by_cases hpos : 0 < ((scanHrefs content).foldl (repairStep fs) (content, 0, [])).2.1
    · rw [if_pos hpos]
      exact ⟨fun _ => hpos, fun _ => rfl⟩
    · rw [if_neg hpos]
      exact ⟨fun h => (Bool.false_ne_true h).elim, fun h => absurd h hpos⟩
  · intro hz
    rw [hupd] at hz
    have h0 := foldl_updates_content fs (scanHrefs content) (content, 0, [])
    have hc := h0.2 (by simpa using hz)
    refine ⟨?_, ?_, ?_⟩
    · rw [hcontent, hc]
    · unfold update_html_file
      rw [if_neg (by omega)]
    · unfold update_html_file
      rw [if_neg (by omega)]
      exact List.mem_append_right _ (List.mem_singleton.mpr rfl)
  · intro hpos
    rw [hupd] at hpos
    have hpos2 : 0 < ((scanHrefs content).foldl (repairStep fs) (content, 0, [])).2.1 := hpos
    rw [hupd]
    unfold update_html_file
    rw [if_pos hpos2]
    exact List.mem_append_right _ (List.mem_singleton.mpr rfl)
  · rw [hcontent, foldl_content_eq, foldl_content_filter]

/-- The static root for the C6 witness: one unrelated file. -/
def c6_fs : StaticFS := ["x/keep.pdf"]

/-- A document with a single dangling PDF href. -/
def c6_doc : String := "<a href=\"/x/gone.pdf\">g</a>"

/-- Witness for C6: the dangling href is warned about. -/
theorem c6_unresolved_and_write_policy_witness :
    ("Warning: Could not find replacement for " ++ stripSlash "/x/gone.pdf") ∈
      (update_html_file c6_fs "templates/index.html" c6_doc).logs :=
  (c6_unresolved_and_write_policy c6_fs "templates/index.html" c6_doc).1 "/x/gone.pdf"
    (by decide) (by decide) (by decide)

end UpdateLinks
